import Mathlib

/-!
Verification of the APNG sticker-maker core against its specification.

The development shallowly embeds the repository's code:

* `src/utils/apngUtils.ts` — the CRC-32 table, `crc32`, and `setApngLoopCount`
  (the loop-count patcher).  Byte buffers are `List Nat` (each entry a byte
  value); `DataView` accesses that can throw a `RangeError` are modelled with
  `Option` (`none` = out-of-range exception).
* `src/components/AnimationPreview.tsx` — the alpha-cleanup pass, the
  procedural animation parameters of `drawFrame` (over `ℝ`), the export
  routine's control flow, and the LINE-compliance gate.
-/

namespace Apng

/-! ## Byte-buffer primitives

`readU32 l o` is `DataView.getUint32(o)` (big-endian) on an in-bounds offset;
out-of-bounds positions read as the `getD` default.  `setU32 l o v` is the
big-endian 4-byte store performed by `DataView.setUint32(o, v)` (JS converts
the stored value with `ToUint32`, i.e. modulo 2^32, which the byte
decompositions below perform implicitly).  Bounds checks sit at the call
sites, where `DataView` would raise. -/

def readU32 (l : List Nat) (o : Nat) : Nat :=
  l.getD o 0 * 2 ^ 24 + l.getD (o + 1) 0 * 2 ^ 16 + l.getD (o + 2) 0 * 2 ^ 8 +
    l.getD (o + 3) 0

def setU32 (l : List Nat) (o v : Nat) : List Nat :=
  ((((l.set o (v / 2 ^ 24 % 256)).set (o + 1) (v / 2 ^ 16 % 256)).set
      (o + 2) (v / 2 ^ 8 % 256)).set (o + 3) (v % 256))

/-! ## CRC-32, as implemented (table-driven)

From `apngUtils.ts`: the table entry for `i` applies eight times the step
`c = (c & 1) ? (0xEDB88320 ^ (c >>> 1)) : (c >>> 1)`; `crc32` starts from
`-1` (the all-ones 32-bit pattern), folds
`crc = (crc >>> 8) ^ crcTable[(crc ^ buf[start + i]) & 0xFF]` over the
requested range (a `Uint8Array` read out of range yields `undefined`, which
the bitwise operations coerce to 0, hence the `getD _ 0`), and finally XORs
with `-1` again. -/

def crcStep (c : Nat) : Nat :=
  if c % 2 = 1 then 0xEDB88320 ^^^ (c / 2) else c / 2

def crcIter : Nat → Nat → Nat
  | 0, c => c
  | k + 1, c => crcIter k (crcStep c)

def crcTableEntry (i : Nat) : Nat := crcIter 8 i

def crcUpdate (crc b : Nat) : Nat :=
  (crc / 2 ^ 8) ^^^ crcTableEntry ((crc ^^^ b) % 256)

def crc32Go (l : List Nat) : Nat → Nat → Nat → Nat
  | _, crc, 0 => crc
  | start, crc, n + 1 => crc32Go l (start + 1) (crcUpdate crc (l.getD start 0)) n

def crc32 (l : List Nat) (start len : Nat) : Nat :=
  crc32Go l start 0xFFFFFFFF len ^^^ 0xFFFFFFFF

/-! ## CRC-32, as specified

The spec describes "the standard reflected CRC-32 used by the container
format": polynomial 0xEDB88320, initial and final complement of all-ones,
each byte XORed into the running value and reduced by eight shift-and-
conditionally-XOR steps.  This is the bit-serial form of the same algorithm;
`crc32_eq_spec` below proves the table-driven implementation computes it. -/

def crcSpecUpdate (crc b : Nat) : Nat := crcIter 8 (crc ^^^ b)

def crc32SpecGo (l : List Nat) : Nat → Nat → Nat → Nat
  | _, crc, 0 => crc
  | start, crc, n + 1 =>
      crc32SpecGo l (start + 1) (crcSpecUpdate crc (l.getD start 0)) n

def crc32Spec (l : List Nat) (start len : Nat) : Nat :=
  crc32SpecGo l start 0xFFFFFFFF len ^^^ 0xFFFFFFFF

/-! ## The loop-count patcher (`setApngLoopCount`)

The chunk walk starts at offset 8 (the function never inspects the first
eight bytes; the PNG signature appears only in a comment).  Per iteration it
checks that the 8-byte chunk header is in range, reads the declared data
length and the type tag, and either patches an `acTL` chunk (tag
0x6163544C) or advances by `length + 12`.  The patch body reads the old
play count at `offset + 12`, overwrites it with `loopCount`, recomputes the
CRC over type + data (`length + 4` bytes from `offset + 4`) — note this runs
*after* the play-count write, over the mutated buffer — reads the old CRC
and overwrites it at `offset + 8 + length`.  The `DataView` accesses in the
patch body are not bounds-checked by the code, so a truncated chunk raises,
modelled by `none`. -/

def patchChunkAt (bytes : List Nat) (lc offset len : Nat) : Option (List Nat) :=
  if offset + 12 + 4 ≤ bytes.length then
    let bytes2 := setU32 bytes (offset + 12) lc
    let crc := crc32 bytes2 (offset + 4) (len + 4)
    if offset + 8 + len + 4 ≤ bytes2.length then
      some (setU32 bytes2 (offset + 8 + len) crc)
    else none
  else none

def patchLoop (bytes : List Nat) (lc : Nat) (offset : Nat) :
    Option (List Nat × Bool) :=
  if offset < bytes.length then
    if offset + 8 > bytes.length then some (bytes, false)
    else
      let len := readU32 bytes offset
      if readU32 bytes (offset + 4) = 0x6163544C then
        (patchChunkAt bytes lc offset len).map (fun out => (out, true))
      else
        patchLoop bytes lc (offset + len + 12)
  else some (bytes, false)
termination_by bytes.length - offset
decreasing_by omega

def setApngLoopCount (bytes : List Nat) (lc : Nat) : Option (List Nat × Bool) :=
  patchLoop bytes lc 8

/-- The offset at which the chunk walk of `setApngLoopCount` first meets an
`acTL` tag, `none` when the walk exhausts the stream (or breaks at a
truncated header) without meeting one.  Same control flow as `patchLoop`,
with the patch body replaced by the found offset; used to state where the
patch applies. -/
def findAcTLAux (bytes : List Nat) (offset : Nat) : Option Nat :=
  if offset < bytes.length then
    if offset + 8 > bytes.length then none
    else
      let len := readU32 bytes offset
      if readU32 bytes (offset + 4) = 0x6163544C then some offset
      else findAcTLAux bytes (offset + len + 12)
  else none
termination_by bytes.length - offset
decreasing_by omega

def findAcTL (bytes : List Nat) : Option Nat := findAcTLAux bytes 8

/-- The guarded patch step of `handleExport`
(`if (loopCount !== 0) { ... setApngLoopCount(apngBuffer, loopCount) ... }`):
the encoded buffer is handed to the patcher only for a non-zero loop count
and passes through untouched otherwise. -/
def applyLoopPatch (bytes : List Nat) (lc : Nat) : Option (List Nat) :=
  if lc ≠ 0 then (setApngLoopCount bytes lc).map Prod.fst else some bytes

/-- Reference-level wrapper for `setApngLoopCount`: the TS function receives
an `ArrayBuffer`, creates `Uint8Array`/`DataView` views over *that same
buffer*, writes through them, and returns the received `buffer` reference.
The heap maps references (`Nat`) to byte lists; an exception (`none` from the
pure model) propagates. -/
def setApngLoopCountRef (h : Nat → List Nat) (r : Nat) (lc : Nat) :
    Option ((Nat → List Nat) × Nat × Bool) :=
  match setApngLoopCount (h r) lc with
  | none => none
  | some (out, found) => some (fun r2 => if r2 = r then out else h r2, r, found)

end Apng

namespace Apng

/-! ## Table-driven CRC equals bit-serial CRC -/

theorem xor_left_comm (x y z : Nat) : x ^^^ (y ^^^ z) = y ^^^ (x ^^^ z) := by
  rw [← Nat.xor_assoc, Nat.xor_comm x y, Nat.xor_assoc]

theorem xor_cancel_left (x y : Nat) : x ^^^ (x ^^^ y) = y := by
  rw [← Nat.xor_assoc, Nat.xor_self, Nat.zero_xor]

theorem crcStep_xor (a b : Nat) : crcStep (a ^^^ b) = crcStep a ^^^ crcStep b := by
  have hdiv : (a ^^^ b) / 2 = a / 2 ^^^ b / 2 := Nat.xor_div_two
  have hmod : (a ^^^ b) % 2 = (a + b) % 2 := Nat.xor_mod_two_eq
  rcases Nat.mod_two_eq_zero_or_one a with ha | ha <;>
    rcases Nat.mod_two_eq_zero_or_one b with hb | hb <;>
    simp only [crcStep, ha, hb, hmod, hdiv] <;>
    simp [Nat.add_mod, ha, hb]
  · exact xor_left_comm _ _ _
  · rw [Nat.xor_assoc]
  · rw [Nat.xor_assoc, xor_left_comm (a / 2), xor_cancel_left]

theorem crcIter_xor (n : Nat) : ∀ a b, crcIter n (a ^^^ b) = crcIter n a ^^^ crcIter n b := by
  induction n with
  | zero => intro a b; rfl
  | succ k ih => intro a b; simp only [crcIter, crcStep_xor]; exact ih _ _

theorem crcStep_double (v : Nat) : crcStep (v * 2) = v := by
  simp [crcStep, Nat.mul_mod_left]

theorem crcIter_shift (n : Nat) : ∀ v, crcIter n (v * 2 ^ n) = v := by
  induction n with
  | zero => intro v; simp [crcIter]
  | succ k ih =>
      intro v
      have h : v * 2 ^ (k + 1) = v * 2 ^ k * 2 := by ring
      simp only [crcIter, h, crcStep_double]
      exact ih v

theorem byte_decomp (x : Nat) : x = (x % 256) ^^^ (x / 256 * 256) := by
  apply Nat.eq_of_testBit_eq
  intro i
  have h256 : (256 : Nat) = 2 ^ 8 := by norm_num
  rw [h256]
  rw [show x / 2 ^ 8 * 2 ^ 8 = (x >>> 8) <<< 8 by
    simp [Nat.shiftRight_eq_div_pow, Nat.shiftLeft_eq]]
  simp only [Nat.testBit_xor, Nat.testBit_mod_two_pow, Nat.testBit_shiftLeft,
    Nat.testBit_shiftRight]
  by_cases h : i < 8
  · simp [h, Nat.not_le.mpr h]
  · push_neg at h
    simp [h, Nat.not_lt.mpr h, Nat.le_of_lt]

theorem crcIter8_split (x : Nat) :
    crcIter 8 x = crcTableEntry (x % 256) ^^^ x / 256 := by
  conv_lhs => rw [byte_decomp x]
  rw [crcIter_xor]
  have h : crcIter 8 (x / 256 * 256) = x / 256 := by
    have h256 : (256 : Nat) = 2 ^ 8 := by norm_num
    rw [h256]
    exact crcIter_shift 8 _
  rw [h]
  rfl

theorem xor_div_256 (a b : Nat) : (a ^^^ b) / 256 = a / 256 ^^^ b / 256 := by
  have h : (a ^^^ b) >>> 8 = a >>> 8 ^^^ b >>> 8 := by
    apply Nat.eq_of_testBit_eq
    intro i
    simp [Nat.testBit_shiftRight, Nat.testBit_xor]
  simpa [Nat.shiftRight_eq_div_pow] using h

theorem crcUpdate_eq_spec (crc b : Nat) (hb : b < 256) :
    crcUpdate crc b = crcSpecUpdate crc b := by
  unfold crcUpdate crcSpecUpdate
  rw [crcIter8_split]
  have hdiv : (crc ^^^ b) / 256 = crc / 256 := by
    rw [xor_div_256, Nat.div_eq_of_lt hb, Nat.xor_zero]
  rw [hdiv, Nat.xor_comm]
  norm_num

theorem getD_lt_of_forall {l : List Nat} (hl : ∀ x ∈ l, x < 256) (n : Nat) :
    l.getD n 0 < 256 := by
  rw [List.getD_eq_getElem?_getD]
  cases h : l[n]? with
  | none => simp
  | some v =>
      have hv : v ∈ l := List.getElem?_mem h
      simpa using hl v hv

theorem crc32Go_eq_spec (l : List Nat) (hl : ∀ x ∈ l, x < 256) :
    ∀ n start crc, crc32Go l start crc n = crc32SpecGo l start crc n := by
  intro n
  induction n with
  | zero => intro start crc; rfl
  | succ k ih =>
      intro start crc
      simp only [crc32Go, crc32SpecGo]
      rw [crcUpdate_eq_spec _ _ (getD_lt_of_forall hl start)]
      exact ih _ _

/-- The implementation's table-driven `crc32` computes the standard
bit-serial reflected CRC-32 on byte-valued buffers. -/
theorem crc32_eq_spec (l : List Nat) (hl : ∀ x ∈ l, x < 256) (start len : Nat) :
    crc32 l start len = crc32Spec l start len := by
  unfold crc32 crc32Spec
  rw [crc32Go_eq_spec l hl]

end Apng

namespace Apng

/-! ## Facts about `setU32` / `readU32` -/

theorem length_setU32 (l : List Nat) (o v : Nat) :
    (setU32 l o v).length = l.length := by
  simp [setU32]

theorem getD_set_ne {l : List Nat} {i j : Nat} (h : i ≠ j) (a : Nat) :
    (l.set i a).getD j 0 = l.getD j 0 := by
  rw [List.getD_eq_getElem?_getD, List.getD_eq_getElem?_getD,
    List.getElem?_set_ne h]

theorem getD_set_self {l : List Nat} {i : Nat} (h : i < l.length) (a : Nat) :
    (l.set i a).getD i 0 = a := by
  rw [List.getD_eq_getElem?_getD, List.getElem?_set_self h]
  rfl

theorem getD_setU32_outside {l : List Nat} {o j : Nat} (v : Nat)
    (h : j < o ∨ o + 4 ≤ j) : (setU32 l o v).getD j 0 = l.getD j 0 := by
  unfold setU32
  rw [getD_set_ne (by omega), getD_set_ne (by omega), getD_set_ne (by omega),
    getD_set_ne (by omega)]

theorem getD_setU32_0 {l : List Nat} {o : Nat} (v : Nat) (h : o < l.length) :
    (setU32 l o v).getD o 0 = v / 2 ^ 24 % 256 := by
  unfold setU32
  rw [getD_set_ne (by omega), getD_set_ne (by omega), getD_set_ne (by omega),
    getD_set_self h]

theorem getD_setU32_1 {l : List Nat} {o : Nat} (v : Nat) (h : o + 1 < l.length) :
    (setU32 l o v).getD (o + 1) 0 = v / 2 ^ 16 % 256 := by
  unfold setU32
  rw [getD_set_ne (by omega), getD_set_ne (by omega),
    getD_set_self (by simpa using h)]

theorem getD_setU32_2 {l : List Nat} {o : Nat} (v : Nat) (h : o + 2 < l.length) :
    (setU32 l o v).getD (o + 2) 0 = v / 2 ^ 8 % 256 := by
  unfold setU32
  rw [getD_set_ne (by omega), getD_set_self (by simpa using h)]

theorem getD_setU32_3 {l : List Nat} {o : Nat} (v : Nat) (h : o + 3 < l.length) :
    (setU32 l o v).getD (o + 3) 0 = v % 256 := by
  unfold setU32
  rw [getD_set_self (by simpa using h)]

theorem readU32_setU32_same {l : List Nat} {o : Nat} (v : Nat)
    (h : o + 4 ≤ l.length) : readU32 (setU32 l o v) o = v % 2 ^ 32 := by
  unfold readU32
  rw [getD_setU32_0 v (by omega), getD_setU32_1 v (by omega),
    getD_setU32_2 v (by omega), getD_setU32_3 v (by omega)]
  omega

theorem readU32_congr {l1 l2 : List Nat} {o : Nat}
    (h : ∀ k, k < 4 → l1.getD (o + k) 0 = l2.getD (o + k) 0) :
    readU32 l1 o = readU32 l2 o := by
  unfold readU32
  have h0 := h 0 (by omega)
  have h1 := h 1 (by omega)
  have h2 := h 2 (by omega)
  have h3 := h 3 (by omega)
  simp only [Nat.add_zero] at h0
  rw [h0, h1, h2, h3]

theorem mem_setU32_lt {l : List Nat} (hl : ∀ x ∈ l, x < 256) (o v : Nat) :
    ∀ x ∈ setU32 l o v, x < 256 := by
  unfold setU32
  intro x hx
  rcases List.mem_or_eq_of_mem_set hx with hx | rfl
  · rcases List.mem_or_eq_of_mem_set hx with hx | rfl
    · rcases List.mem_or_eq_of_mem_set hx with hx | rfl
      · rcases List.mem_or_eq_of_mem_set hx with hx | rfl
        · exact hl x hx
        · omega
      · omega
    · omega
  · omega

/-! ## 32-bit bounds for the CRC state -/

theorem crcStep_lt {c : Nat} (h : c < 2 ^ 32) : crcStep c < 2 ^ 32 := by
  unfold crcStep
  split
  · exact Nat.xor_lt_two_pow (by norm_num) (by omega)
  · omega

theorem crcIter_lt (n : Nat) : ∀ {c : Nat}, c < 2 ^ 32 → crcIter n c < 2 ^ 32 := by
  induction n with
  | zero => intro c h; exact h
  | succ k ih => intro c h; exact ih (crcStep_lt h)

theorem crcUpdate_lt {crc : Nat} (b : Nat) (h : crc < 2 ^ 32) :
    crcUpdate crc b < 2 ^ 32 := by
  unfold crcUpdate
  exact Nat.xor_lt_two_pow (by omega) (crcIter_lt 8 (by omega))

theorem crc32Go_lt (l : List Nat) :
    ∀ (n start : Nat) {crc : Nat}, crc < 2 ^ 32 → crc32Go l start crc n < 2 ^ 32 := by
  intro n
  induction n with
  | zero => intro start crc h; exact h
  | succ k ih => intro start crc h; exact ih _ (crcUpdate_lt _ h)

theorem crc32_lt (l : List Nat) (start len : Nat) : crc32 l start len < 2 ^ 32 := by
  unfold crc32
  exact Nat.xor_lt_two_pow (crc32Go_lt l len start (by norm_num)) (by norm_num)

/-- The CRC fold reads exactly the `len` positions `start + i`, `i < len`. -/
theorem crc32Go_congr (l1 l2 : List Nat) :
    ∀ (n start crc : Nat),
      (∀ i, i < n → l1.getD (start + i) 0 = l2.getD (start + i) 0) →
      crc32Go l1 start crc n = crc32Go l2 start crc n := by
  intro n
  induction n with
  | zero => intro start crc _; rfl
  | succ k ih =>
      intro start crc h
      simp only [crc32Go]
      have h0 := h 0 (by omega)
      simp only [Nat.add_zero] at h0
      rw [h0]
      exact ih _ _ fun i hi => by
        have := h (1 + i) (by omega)
        simpa [Nat.add_assoc] using this

theorem crc32_congr {l1 l2 : List Nat} {start len : Nat}
    (h : ∀ i, i < len → l1.getD (start + i) 0 = l2.getD (start + i) 0) :
    crc32 l1 start len = crc32 l2 start len := by
  unfold crc32
  rw [crc32Go_congr l1 l2 len start _ h]

end Apng

namespace Apng

/-! ## The chunk walk, characterized via `findAcTL` -/

theorem patchLoop_of_findAux (bytes : List Nat) (lc : Nat) :
    ∀ n offset o, bytes.length - offset ≤ n →
      findAcTLAux bytes offset = some o →
      patchLoop bytes lc offset =
        (patchChunkAt bytes lc o (readU32 bytes o)).map (fun out => (out, true)) := by
  intro n
  induction n with
  | zero =>
      intro offset o hn hf
      rw [findAcTLAux] at hf
      rw [if_neg (by omega)] at hf
      exact absurd hf (by simp)
  | succ k ih =>
      intro offset o hn hf
      rw [findAcTLAux] at hf
      rw [patchLoop]
      by_cases h1 : offset < bytes.length
      · rw [if_pos h1] at hf ⊢
        by_cases h2 : offset + 8 > bytes.length
        · rw [if_pos h2] at hf
          exact absurd hf (by simp)
        · rw [if_neg h2] at hf ⊢
          by_cases h3 : readU32 bytes (offset + 4) = 0x6163544C
          · rw [if_pos h3] at hf ⊢
            obtain rfl : offset = o := by simpa using hf
            rfl
          · rw [if_neg h3] at hf ⊢
            exact ih _ _ (by omega) hf
      · rw [if_neg h1] at hf
        exact absurd hf (by simp)

theorem patchLoop_of_noneAux (bytes : List Nat) (lc : Nat) :
    ∀ n offset, bytes.length - offset ≤ n →
      findAcTLAux bytes offset = none →
      patchLoop bytes lc offset = some (bytes, false) := by
  intro n
  induction n with
  | zero =>
      intro offset hn _
      rw [patchLoop, if_neg (by omega)]
  | succ k ih =>
      intro offset hn hf
      rw [findAcTLAux] at hf
      rw [patchLoop]
      by_cases h1 : offset < bytes.length
      · rw [if_pos h1] at hf ⊢
        by_cases h2 : offset + 8 > bytes.length
        · rw [if_pos h2]
        · rw [if_neg h2] at hf ⊢
          by_cases h3 : readU32 bytes (offset + 4) = 0x6163544C
          · rw [if_pos h3] at hf
            exact absurd hf (by simp)
          · rw [if_neg h3] at hf ⊢
            exact ih _ (by omega) hf
      · rw [if_neg h1]

/-- When the chunk walk meets an `acTL` tag at offset `o`, `setApngLoopCount`
runs the patch body on that chunk. -/
theorem setApngLoopCount_found {bytes : List Nat} {o : Nat} (lc : Nat)
    (hf : findAcTL bytes = some o) :
    setApngLoopCount bytes lc =
      (patchChunkAt bytes lc o (readU32 bytes o)).map (fun out => (out, true)) :=
  patchLoop_of_findAux bytes lc bytes.length 8 o (by omega) hf

/-- When the chunk walk finds no `acTL` tag, `setApngLoopCount` returns the
input bytes unchanged, reporting `found = false`. -/
theorem setApngLoopCount_not_found {bytes : List Nat} (lc : Nat)
    (hf : findAcTL bytes = none) :
    setApngLoopCount bytes lc = some (bytes, false) :=
  patchLoop_of_noneAux bytes lc bytes.length 8 (by omega) hf

end Apng

namespace Apng

/-- Claim C1: for a byte sequence whose chunk walk finds an `acTL` chunk at
offset `o` that lies fully inside the buffer (declared data length
`L = readU32 bytes o`, with the standard `L ≥ 8` layout holding frame count
and play count), and a loop count `N ∈ [1,4]`, `setApngLoopCount` succeeds;
the output has the input's length, agrees with the input everywhere outside
the 4 play-count bytes (`o+12 .. o+15`) and the 4 trailing checksum bytes
(`o+8+L .. o+11+L`), stores `N` in the play-count field, and stores in the
checksum field exactly the standard bit-serial reflected CRC-32 of the
patched chunk's type tag plus data (the `L + 4` bytes from `o + 4`). -/
theorem C1_setLoopCount_patches (bytes : List Nat) (lc o : Nat)
    (hbyte : ∀ x ∈ bytes, x < 256)
    (hlc1 : 1 ≤ lc) (hlc4 : lc ≤ 4)
    (hf : findAcTL bytes = some o)
    (hL8 : 8 ≤ readU32 bytes o)
    (hbound : o + 12 + readU32 bytes o ≤ bytes.length) :
    ∃ out : List Nat,
      setApngLoopCount bytes lc = some (out, true) ∧
      out.length = bytes.length ∧
      (∀ j, (j < o + 12 ∨ o + 16 ≤ j) →
        (j < o + 8 + readU32 bytes o ∨ o + 12 + readU32 bytes o ≤ j) →
        out.getD j 0 = bytes.getD j 0) ∧
      readU32 out (o + 12) = lc ∧
      readU32 out (o + 8 + readU32 bytes o) =
        crc32Spec out (o + 4) (readU32 bytes o + 4) := by
  set L := readU32 bytes o with hLdef
  set bytes2 := setU32 bytes (o + 12) lc with hb2
  set crcv := crc32 bytes2 (o + 4) (L + 4) with hcrcv
  set out := setU32 bytes2 (o + 8 + L) crcv with hout
  have hlen2 : bytes2.length = bytes.length := length_setU32 _ _ _
  have hlenout : out.length = bytes.length := by
    rw [hout, length_setU32, hlen2]
  have hpatch : patchChunkAt bytes lc o L = some out := by
    rw [patchChunkAt, if_pos (by omega)]
    simp only
    rw [if_pos (by rw [hlen2]; omega)]
  have hrun : setApngLoopCount bytes lc = some (out, true) := by
    rw [setApngLoopCount_found lc hf, ← hLdef, hpatch, Option.map_some']
  refine ⟨out, hrun, hlenout, ?_, ?_, ?_⟩
  · intro j hj1 hj2
    rw [hout, getD_setU32_outside _ (by omega), hb2,
      getD_setU32_outside _ (by omega)]
  · have h1 : readU32 out (o + 12) = readU32 bytes2 (o + 12) := by
      apply readU32_congr
      intro k hk
      rw [hout, getD_setU32_outside _ (by omega)]
    rw [h1, hb2, readU32_setU32_same _ (by omega)]
    omega
  · have h2 : readU32 out (o + 8 + L) = crcv % 2 ^ 32 := by
      rw [hout]
      exact readU32_setU32_same _ (by rw [hlen2]; omega)
    have h3 : crcv < 2 ^ 32 := crc32_lt _ _ _
    have h4 : crc32 out (o + 4) (L + 4) = crcv := by
      rw [hcrcv]
      apply crc32_congr
      intro i hi
      rw [hout, getD_setU32_outside _ (by omega)]
    have h5 : ∀ x ∈ out, x < 256 :=
      mem_setU32_lt (mem_setU32_lt hbyte _ _) _ _
    rw [h2, Nat.mod_eq_of_lt h3, ← crc32_eq_spec out h5, h4]

end Apng

namespace Apng

/-- Concrete container for the C1 witness: an arbitrary 8-byte lead-in
followed by one well-formed `acTL` chunk (`L = 8`, `num_frames = 1`,
`num_plays = 1`, stale CRC). -/
def c1bytes : List Nat :=
  [137, 80, 78, 71, 13, 10, 26, 10, 0, 0, 0, 8, 97, 99, 84, 76,
   0, 0, 0, 1, 0, 0, 0, 1, 0, 0, 0, 0]

theorem C1_setLoopCount_patches_witness :
    ∃ out : List Nat,
      setApngLoopCount c1bytes 3 = some (out, true) ∧
      out.length = c1bytes.length ∧
      (∀ j, (j < 8 + 12 ∨ 8 + 16 ≤ j) →
        (j < 8 + 8 + readU32 c1bytes 8 ∨ 8 + 12 + readU32 c1bytes 8 ≤ j) →
        out.getD j 0 = c1bytes.getD j 0) ∧
      readU32 out (8 + 12) = 3 ∧
      readU32 out (8 + 8 + readU32 c1bytes 8) =
        crc32Spec out (8 + 4) (readU32 c1bytes 8 + 4) :=
  C1_setLoopCount_patches c1bytes 3 8 (by decide) (by decide) (by decide)
    (by rw [findAcTL, findAcTLAux]; norm_num [c1bytes, readU32])
    (by decide) (by decide)

/-- Claim C2, counterexample: `setApngLoopCount` applied with loop count 0 is
*not* the identity.  On a container whose `acTL` play count is 1 it writes 0
over the play-count field (byte 23 goes from 1 to 0) and reports a patch
(`found = true`). -/
theorem C2_counterexample :
    (setApngLoopCount
        [137, 80, 78, 71, 13, 10, 26, 10, 0, 0, 0, 8, 97, 99, 84, 76,
         0, 0, 0, 1, 0, 0, 0, 1, 0, 0, 0, 0] 0).map
      (fun r => (r.1.getD 23 0, r.2)) = some (0, true) ∧
    ([137, 80, 78, 71, 13, 10, 26, 10, 0, 0, 0, 8, 97, 99, 84, 76,
      0, 0, 0, 1, 0, 0, 0, 1, 0, 0, 0, 0] : List Nat).getD 23 0 = 1 := by
  constructor
  · rw [setApngLoopCount, patchLoop]
    norm_num [readU32, patchChunkAt]
    decide
  · decide

/-- Claim C2, amended: in the export pipeline the `loopCount = 0` no-op lives
in the caller — `handleExport` invokes the patcher only when
`loopCount !== 0`, so the patch step returns the encoded bytes untouched for
every byte sequence. -/
theorem C2_loopCount_zero_pipeline_identity (bytes : List Nat) :
    applyLoopPatch bytes 0 = some bytes := by
  simp [applyLoopPatch]

/-- Claim C10: the chunk walk bounds-checks only the 8-byte header.  When the
walk reaches an `acTL` chunk at offset `o` whose declared data length `L`
makes the chunk spill past the end of the buffer (`o + 8 + L + 4` exceeds the
total length), the play-count/checksum `DataView` accesses go out of range
and the call raises (`none`) instead of returning a `(bytes, report)`
result. -/
theorem C10_truncated_chunk_raises (bytes : List Nat) (lc o : Nat)
    (hf : findAcTL bytes = some o)
    (hbound : o + 8 + readU32 bytes o + 4 > bytes.length) :
    setApngLoopCount bytes lc = none := by
  rw [setApngLoopCount_found lc hf, patchChunkAt]
  by_cases h1 : o + 12 + 4 ≤ bytes.length
  · rw [if_pos h1]
    simp only
    rw [if_neg (by rw [length_setU32]; omega)]
    rfl
  · rw [if_neg h1]
    rfl

theorem C10_truncated_chunk_raises_witness :
    setApngLoopCount
      [0, 0, 0, 0, 0, 0, 0, 0, 0, 0, 0, 50, 97, 99, 84, 76] 3 = none :=
  C10_truncated_chunk_raises _ 3 8
    (by rw [findAcTL, findAcTLAux]; norm_num [readU32])
    (by decide)

end Apng

namespace Apng

/-! ## The walk never consults the first 8 bytes (no signature check) -/

theorem getD_set_agree {l1 l2 : List Nat} (hlen : l1.length = l2.length)
    {i j : Nat} (a : Nat) (h : l1.getD j 0 = l2.getD j 0) :
    (l1.set i a).getD j 0 = (l2.set i a).getD j 0 := by
  rw [List.getD_eq_getElem?_getD, List.getD_eq_getElem?_getD,
    List.getElem?_set, List.getElem?_set, ← hlen]
  split
  · split <;> simp
  · rw [List.getD_eq_getElem?_getD, List.getD_eq_getElem?_getD] at h
    rw [h]

theorem setU32_agree {l1 l2 : List Nat} (hlen : l1.length = l2.length)
    {p : Nat} (v : Nat) {j : Nat}
    (h : l1.getD j 0 = l2.getD j 0) :
    (setU32 l1 p v).getD j 0 = (setU32 l2 p v).getD j 0 := by
  unfold setU32
  apply getD_set_agree (by simp [hlen])
  apply getD_set_agree (by simp [hlen])
  apply getD_set_agree (by simp [hlen])
  exact getD_set_agree hlen _ h

end Apng

namespace Apng

theorem patchLoop_indep (lc : Nat) :
    ∀ (n : Nat) (l1 l2 : List Nat) (offset : Nat),
      l1.length = l2.length →
      (∀ j, 8 ≤ j → l1.getD j 0 = l2.getD j 0) →
      8 ≤ offset →
      l1.length - offset ≤ n →
      (patchLoop l1 lc offset = none ∧ patchLoop l2 lc offset = none) ∨
      (∃ f out1 out2,
        patchLoop l1 lc offset = some (out1, f) ∧
        patchLoop l2 lc offset = some (out2, f) ∧
        out1.length = l1.length ∧ out2.length = l2.length ∧
        (∀ j, 8 ≤ j → out1.getD j 0 = out2.getD j 0) ∧
        (∀ j, j < 8 → out1.getD j 0 = l1.getD j 0 ∧ out2.getD j 0 = l2.getD j 0)) := by
  intro n
  induction n with
  | zero =>
      intro l1 l2 offset hlen hs hoff hn
      right
      refine ⟨false, l1, l2, ?_, ?_, rfl, rfl, hs, fun j _ => ⟨rfl, rfl⟩⟩
      · rw [patchLoop, if_neg (by omega)]
      · rw [patchLoop, if_neg (by omega)]
  | succ k ih =>
      intro l1 l2 offset hlen hs hoff hn
      have hread : ∀ o2, 8 ≤ o2 → readU32 l1 o2 = readU32 l2 o2 := by
        intro o2 ho2
        exact readU32_congr fun k hk => hs _ (by omega)
      by_cases h1 : offset < l1.length
      · by_cases h2 : offset + 8 > l1.length
        · right
          refine ⟨false, l1, l2, ?_, ?_, rfl, rfl, hs, fun j _ => ⟨rfl, rfl⟩⟩
          · rw [patchLoop, if_pos h1, if_pos h2]
          · rw [patchLoop, if_pos (by omega), if_pos (by omega)]
        · by_cases h3 : readU32 l1 (offset + 4) = 0x6163544C
          · -- the acTL chunk is patched in both runs
            have h3b : readU32 l2 (offset + 4) = 0x6163544C := by
              rw [← hread _ (by omega)]; exact h3
            have e1 : patchLoop l1 lc offset =
                (patchChunkAt l1 lc offset (readU32 l1 offset)).map
                  (fun out => (out, true)) := by
              rw [patchLoop, if_pos h1, if_neg h2, if_pos h3]
            have e2 : patchLoop l2 lc offset =
                (patchChunkAt l2 lc offset (readU32 l2 offset)).map
                  (fun out => (out, true)) := by
              rw [patchLoop, if_pos (by omega), if_neg (by omega), if_pos h3b]
            rw [e1, e2, ← hread offset hoff]
            set L := readU32 l1 offset with hL
            by_cases g1 : offset + 12 + 4 ≤ l1.length
            · by_cases g2 : offset + 8 + L + 4 ≤ l1.length
              · right
                set b1 := setU32 l1 (offset + 12) lc with hb1
                set b2 := setU32 l2 (offset + 12) lc with hb2
                have hblen : b1.length = b2.length := by
                  rw [hb1, hb2, length_setU32, length_setU32, hlen]
                have hbs : ∀ j, 8 ≤ j → b1.getD j 0 = b2.getD j 0 := by
                  intro j hj
                  exact setU32_agree hlen lc (hs j hj)
                have hcrc : crc32 b1 (offset + 4) (L + 4) =
                    crc32 b2 (offset + 4) (L + 4) := by
                  exact crc32_congr fun i _ => hbs _ (by omega)
                set o1 := setU32 b1 (offset + 8 + L) (crc32 b1 (offset + 4) (L + 4))
                  with ho1
                set o2 := setU32 b2 (offset + 8 + L) (crc32 b2 (offset + 4) (L + 4))
                  with ho2
                refine ⟨true, o1, o2, ?_, ?_, ?_, ?_, ?_, ?_⟩
                · rw [patchChunkAt, if_pos g1]
                  simp only
                  rw [if_pos (by rw [length_setU32]; omega)]
                  rfl
                · rw [patchChunkAt, if_pos (by omega)]
                  simp only
                  rw [if_pos (by rw [length_setU32]; omega)]
                  rfl
                · rw [ho1, length_setU32, hb1, length_setU32]
                · rw [ho2, length_setU32, hb2, length_setU32]
                · intro j hj
                  rw [ho1, ho2, hcrc]
                  exact setU32_agree hblen _ (hbs j hj)
                · intro j hj
                  constructor
                  · rw [ho1, getD_setU32_outside _ (by omega), hb1,
                      getD_setU32_outside _ (by omega)]
                  · rw [ho2, getD_setU32_outside _ (by omega), hb2,
                      getD_setU32_outside _ (by omega)]
              · left
                constructor
                · rw [patchChunkAt, if_pos g1]
                  simp only
                  rw [if_neg (by rw [length_setU32]; omega)]
                  rfl
                · rw [patchChunkAt, if_pos (by omega)]
                  simp only
                  rw [if_neg (by rw [length_setU32]; omega)]
                  rfl
            · left
              constructor
              · rw [patchChunkAt, if_neg g1]; rfl
              · rw [patchChunkAt, if_neg (by omega)]; rfl
          · have h3b : ¬ readU32 l2 (offset + 4) = 0x6163544C := by
              rw [← hread _ (by omega)]; exact h3
            have e1 : patchLoop l1 lc offset =
                patchLoop l1 lc (offset + readU32 l1 offset + 12) := by
              rw [patchLoop, if_pos h1, if_neg h2, if_neg h3]
            have e2 : patchLoop l2 lc offset =
                patchLoop l2 lc (offset + readU32 l2 offset + 12) := by
              rw [patchLoop, if_pos (by omega), if_neg (by omega), if_neg h3b]
            rw [e1, e2, ← hread offset hoff]
            exact ih l1 l2 _ hlen hs (by omega) (by omega)
      · right
        refine ⟨false, l1, l2, ?_, ?_, rfl, rfl, hs, fun j _ => ⟨rfl, rfl⟩⟩
        · rw [patchLoop, if_neg h1]
        · rw [patchLoop, if_neg (by omega)]

end Apng

namespace Apng

/-- Claim C3, counterexample: `setApngLoopCount` performs no signature
verification.  On an input whose first 8 bytes are all zero (not the
container signature) it does not fail and does not return the bytes
unmodified: it walks the stream anyway, patches the `acTL` chunk (byte 23
goes from 1 to 2) and reports `found = true`. -/
theorem C3_counterexample :
    (setApngLoopCount
        [0, 0, 0, 0, 0, 0, 0, 0, 0, 0, 0, 8, 97, 99, 84, 76,
         0, 0, 0, 1, 0, 0, 0, 1, 0, 0, 0, 0] 2).map
      (fun r => (r.1.getD 23 0, r.2)) = some (2, true) ∧
    ([0, 0, 0, 0, 0, 0, 0, 0, 0, 0, 0, 8, 97, 99, 84, 76,
      0, 0, 0, 1, 0, 0, 0, 1, 0, 0, 0, 0] : List Nat).getD 23 0 = 1 := by
  constructor
  · rw [setApngLoopCount, patchLoop]
    norm_num [readU32, patchChunkAt]
    decide
  · decide

/-- Claim C3, amended: `setApngLoopCount` verifies nothing about the leading
8 bytes — it unconditionally starts the chunk walk at offset 8, so its
outcome (exception, or patched/unpatched output beyond offset 8) is
identical for any two inputs agreeing from byte 8 on, with each input's own
first 8 bytes passed through untouched; and the bytes come back unmodified
(with a chunk-not-found report, not a format error) exactly when the walk
finds no `acTL` chunk. -/
theorem C3_no_signature_check (l1 l2 : List Nat) (lc : Nat)
    (hlen : l1.length = l2.length)
    (hs : ∀ j, 8 ≤ j → j < l1.length → l1.getD j 0 = l2.getD j 0) :
    ((setApngLoopCount l1 lc = none ∧ setApngLoopCount l2 lc = none) ∨
      (∃ f out1 out2,
        setApngLoopCount l1 lc = some (out1, f) ∧
        setApngLoopCount l2 lc = some (out2, f) ∧
        out1.length = l1.length ∧ out2.length = l2.length ∧
        (∀ j, 8 ≤ j → out1.getD j 0 = out2.getD j 0) ∧
        (∀ j, j < 8 → out1.getD j 0 = l1.getD j 0 ∧ out2.getD j 0 = l2.getD j 0))) ∧
    (findAcTL l1 = none → setApngLoopCount l1 lc = some (l1, false)) := by
  have hs2 : ∀ j, 8 ≤ j → l1.getD j 0 = l2.getD j 0 := by
    intro j hj
    by_cases h : j < l1.length
    · exact hs j hj h
    · rw [List.getD_eq_default _ _ (by omega), List.getD_eq_default _ _ (by omega)]
  constructor
  · exact patchLoop_indep lc l1.length l1 l2 8 hlen hs2 (by omega) (by omega)
  · exact fun h => setApngLoopCount_not_found lc h

theorem C3_no_signature_check_witness :
    ((setApngLoopCount
          [1, 2, 3, 4, 5, 6, 7, 9, 0, 0, 0, 8, 97, 99, 84, 76,
           0, 0, 0, 1, 0, 0, 0, 1, 0, 0, 0, 0] 1 = none ∧
        setApngLoopCount
          [137, 80, 78, 71, 13, 10, 26, 10, 0, 0, 0, 8, 97, 99, 84, 76,
           0, 0, 0, 1, 0, 0, 0, 1, 0, 0, 0, 0] 1 = none) ∨
      (∃ f out1 out2,
        setApngLoopCount
          [1, 2, 3, 4, 5, 6, 7, 9, 0, 0, 0, 8, 97, 99, 84, 76,
           0, 0, 0, 1, 0, 0, 0, 1, 0, 0, 0, 0] 1 = some (out1, f) ∧
        setApngLoopCount
          [137, 80, 78, 71, 13, 10, 26, 10, 0, 0, 0, 8, 97, 99, 84, 76,
           0, 0, 0, 1, 0, 0, 0, 1, 0, 0, 0, 0] 1 = some (out2, f) ∧
        out1.length =
          ([1, 2, 3, 4, 5, 6, 7, 9, 0, 0, 0, 8, 97, 99, 84, 76,
            0, 0, 0, 1, 0, 0, 0, 1, 0, 0, 0, 0] : List Nat).length ∧
        out2.length =
          ([137, 80, 78, 71, 13, 10, 26, 10, 0, 0, 0, 8, 97, 99, 84, 76,
            0, 0, 0, 1, 0, 0, 0, 1, 0, 0, 0, 0] : List Nat).length ∧
        (∀ j, 8 ≤ j → out1.getD j 0 = out2.getD j 0) ∧
        (∀ j, j < 8 →
          out1.getD j 0 =
            ([1, 2, 3, 4, 5, 6, 7, 9, 0, 0, 0, 8, 97, 99, 84, 76,
              0, 0, 0, 1, 0, 0, 0, 1, 0, 0, 0, 0] : List Nat).getD j 0 ∧
          out2.getD j 0 =
            ([137, 80, 78, 71, 13, 10, 26, 10, 0, 0, 0, 8, 97, 99, 84, 76,
              0, 0, 0, 1, 0, 0, 0, 1, 0, 0, 0, 0] : List Nat).getD j 0))) ∧
    (findAcTL
        [1, 2, 3, 4, 5, 6, 7, 9, 0, 0, 0, 8, 97, 99, 84, 76,
         0, 0, 0, 1, 0, 0, 0, 1, 0, 0, 0, 0] = none →
      setApngLoopCount
        [1, 2, 3, 4, 5, 6, 7, 9, 0, 0, 0, 8, 97, 99, 84, 76,
         0, 0, 0, 1, 0, 0, 0, 1, 0, 0, 0, 0] 1 =
        some ([1, 2, 3, 4, 5, 6, 7, 9, 0, 0, 0, 8, 97, 99, 84, 76,
               0, 0, 0, 1, 0, 0, 0, 1, 0, 0, 0, 0], false)) :=
  C3_no_signature_check _ _ 1 (by decide) (by decide)

/-- Claim C9: the patcher works in place.  At the reference level the value
returned on success carries the *same* buffer reference it was given (no
copy), the caller's buffer at that reference now holds the patched bytes
(the pure patch of its old contents), and every other reference is
untouched. -/
theorem C9_in_place_patch (h : Nat → List Nat) (r lc : Nat)
    (hsome : (setApngLoopCountRef h r lc).isSome = true) :
    ∃ h2 found,
      setApngLoopCountRef h r lc = some (h2, r, found) ∧
      (∀ r2, r2 ≠ r → h2 r2 = h r2) ∧
      setApngLoopCount (h r) lc = some (h2 r, found) := by
  unfold setApngLoopCountRef at hsome ⊢
  cases hp : setApngLoopCount (h r) lc with
  | none => rw [hp] at hsome; simp at hsome
  | some p =>
      obtain ⟨out, found⟩ := p
      refine ⟨fun r2 => if r2 = r then out else h r2, found, rfl, ?_, ?_⟩
      · intro r2 hr2
        simp [hr2]
      · simp [hp]

end Apng

namespace Apng

/-- Concrete container for the C9 witness (`num_frames = 2`,
`num_plays = 1`, stale CRC). -/
def c9bytes : List Nat :=
  [137, 80, 78, 71, 13, 10, 26, 10, 0, 0, 0, 8, 97, 99, 84, 76,
   0, 0, 0, 2, 0, 0, 0, 1, 0, 0, 0, 0]

theorem C9_in_place_patch_witness :
    ∃ h2 found,
      setApngLoopCountRef (fun _ => c9bytes) 5 2 = some (h2, 5, found) ∧
      (∀ r2, r2 ≠ 5 → h2 r2 = (fun _ => c9bytes) r2) ∧
      setApngLoopCount ((fun _ => c9bytes) 5) 2 = some (h2 5, found) :=
  C9_in_place_patch _ 5 2 (by
    unfold setApngLoopCountRef
    have hp : setApngLoopCount c9bytes 2 =
        (patchChunkAt c9bytes 2 8 (readU32 c9bytes 8)).map (fun out => (out, true)) := by
      rw [setApngLoopCount, patchLoop]
      norm_num [c9bytes, readU32]
    simp only [hp]
    decide)

end Apng

namespace Apng

/-! ## The alpha-cleanup pass of `AnimationPreview`

From the image-load `useEffect`: `originalData` is a snapshot of the pixel
buffer taken before the loop; the double loop over `y < height`, `x < width`
computes `idx = (y * width + x) * 4`, zeroes the alpha byte `idx + 3` when
the snapshot alpha is below the threshold 60, and otherwise zeroes it when
any in-bounds 4-neighbour's snapshot alpha is below the threshold (the
`else if` chain over left/right/up/down).  R/G/B bytes are never written. -/

def threshold : Nat := 60

def isEdge (orig : List Nat) (w h x y : Nat) : Bool :=
  let idx := (y * w + x) * 4
  if 0 < x ∧ orig.getD (idx - 4 + 3) 0 < threshold then true
  else if x < w - 1 ∧ orig.getD (idx + 4 + 3) 0 < threshold then true
  else if 0 < y ∧ orig.getD (idx - w * 4 + 3) 0 < threshold then true
  else if y < h - 1 ∧ orig.getD (idx + w * 4 + 3) 0 < threshold then true
  else false

def processPixel (orig : List Nat) (w h : Nat) (data : List Nat) (x y : Nat) :
    List Nat :=
  let idx := (y * w + x) * 4
  if orig.getD (idx + 3) 0 < threshold then data.set (idx + 3) 0
  else if isEdge orig w h x y then data.set (idx + 3) 0
  else data

def cleanAlphaData (w h : Nat) (data : List Nat) : List Nat :=
  (List.range h).foldl
    (fun d y => (List.range w).foldl (fun d2 x => processPixel data w h d2 x y) d)
    data

/-- Whether the pass zeroes the alpha byte of pixel `(x, y)`: snapshot alpha
below threshold, or eroded as a boundary pixel. -/
def shouldZero (orig : List Nat) (w h x y : Nat) : Bool :=
  decide (orig.getD ((y * w + x) * 4 + 3) 0 < threshold) || isEdge orig w h x y

theorem processPixel_length (orig : List Nat) (w h : Nat) (d : List Nat)
    (x y : Nat) : (processPixel orig w h d x y).length = d.length := by
  simp only [processPixel]
  by_cases hA : orig.getD ((y * w + x) * 4 + 3) 0 < threshold
  · rw [if_pos hA, List.length_set]
  · rw [if_neg hA]
    by_cases hB : isEdge orig w h x y = true
    · rw [if_pos hB, List.length_set]
    · rw [if_neg hB]

theorem getD_set_zero_le (l : List Nat) (i j : Nat) :
    (l.set i 0).getD j 0 ≤ l.getD j 0 := by
  rw [List.getD_eq_getElem?_getD, List.getD_eq_getElem?_getD, List.getElem?_set]
  split
  · split <;> simp
  · exact Nat.le_refl _

theorem getD_set_zero_self (l : List Nat) (i : Nat) :
    (l.set i 0).getD i 0 = 0 := by
  rw [List.getD_eq_getElem?_getD, List.getElem?_set]
  split
  · split <;> simp
  · omega

/-- One pass of the loop body writes 0 at the pixel's alpha index exactly
when `shouldZero` holds, and touches nothing else. -/
theorem processPixel_eq_ite (orig : List Nat) (w h : Nat) (d : List Nat)
    (x y : Nat) :
    processPixel orig w h d x y =
      if shouldZero orig w h x y = true then d.set ((y * w + x) * 4 + 3) 0
      else d := by
  simp only [processPixel, shouldZero]
  by_cases hA : orig.getD ((y * w + x) * 4 + 3) 0 < threshold
  · rw [if_pos hA,
      if_pos (by simp only [Bool.or_eq_true, decide_eq_true_eq]; exact Or.inl hA)]
  · rw [if_neg hA]
    by_cases hB : isEdge orig w h x y = true
    · rw [if_pos hB,
        if_pos (by simp only [Bool.or_eq_true, decide_eq_true_eq]; exact Or.inr hB)]
    · rw [if_neg hB,
        if_neg (by simp only [Bool.or_eq_true, decide_eq_true_eq]; tauto)]

theorem processPixel_getD (orig : List Nat) (w h : Nat) (d : List Nat)
    (x y j : Nat) :
    ((j = (y * w + x) * 4 + 3 ∧ shouldZero orig w h x y = true) →
      (processPixel orig w h d x y).getD j 0 = 0) ∧
    (¬ (j = (y * w + x) * 4 + 3 ∧ shouldZero orig w h x y = true) →
      (processPixel orig w h d x y).getD j 0 = d.getD j 0) := by
  rw [processPixel_eq_ite]
  constructor
  · rintro ⟨rfl, hz⟩
    rw [if_pos hz]
    exact getD_set_zero_self _ _
  · intro hno
    by_cases hz : shouldZero orig w h x y = true
    · rw [if_pos hz]
      have hj : j ≠ (y * w + x) * 4 + 3 := fun he => hno ⟨he, hz⟩
      exact getD_set_ne (by omega) 0
    · rw [if_neg hz]

end Apng

namespace Apng

/-! ## Generic facts about folds of index-writing steps -/

theorem foldl_length {α : Type} (step : List Nat → α → List Nat)
    (hstep : ∀ d a, (step d a).length = d.length) :
    ∀ (xs : List α) (d : List Nat), (xs.foldl step d).length = d.length := by
  intro xs
  induction xs with
  | nil => intro d; rfl
  | cons a xs ih => intro d; rw [List.foldl_cons, ih, hstep]

theorem foldl_getD_le {α : Type} (step : List Nat → α → List Nat) (j : Nat)
    (hstep : ∀ d a, (step d a).getD j 0 ≤ d.getD j 0) :
    ∀ (xs : List α) (d : List Nat), (xs.foldl step d).getD j 0 ≤ d.getD j 0 := by
  intro xs
  induction xs with
  | nil => intro d; exact Nat.le_refl _
  | cons a xs ih =>
      intro d
      rw [List.foldl_cons]
      exact Nat.le_trans (ih _) (hstep d a)

theorem foldl_getD_preserve {α : Type} (step : List Nat → α → List Nat)
    (Q : α → Prop) (j : Nat)
    (hpres : ∀ d a, ¬ Q a → (step d a).getD j 0 = d.getD j 0) :
    ∀ (xs : List α) (d : List Nat), (∀ a ∈ xs, ¬ Q a) →
      (xs.foldl step d).getD j 0 = d.getD j 0 := by
  intro xs
  induction xs with
  | nil => intro d _; rfl
  | cons a xs ih =>
      intro d hq
      rw [List.foldl_cons, ih _ fun b hb => hq b (by simp [hb]),
        hpres d a (hq a (by simp))]

theorem foldl_getD_zero_stays {α : Type} (step : List Nat → α → List Nat)
    (Q : α → Prop) (j : Nat)
    (hzero : ∀ d a, Q a → (step d a).getD j 0 = 0)
    (hpres : ∀ d a, ¬ Q a → (step d a).getD j 0 = d.getD j 0) :
    ∀ (xs : List α) (d : List Nat), d.getD j 0 = 0 →
      (xs.foldl step d).getD j 0 = 0 := by
  intro xs
  induction xs with
  | nil => intro d hd; exact hd
  | cons a xs ih =>
      intro d hd
      rw [List.foldl_cons]
      by_cases hq : Q a
      · exact ih _ (hzero d a hq)
      · exact ih _ ((hpres d a hq).trans hd)

theorem foldl_getD_zero_of_mem {α : Type} (step : List Nat → α → List Nat)
    (Q : α → Prop) (j : Nat)
    (hzero : ∀ d a, Q a → (step d a).getD j 0 = 0)
    (hpres : ∀ d a, ¬ Q a → (step d a).getD j 0 = d.getD j 0) :
    ∀ (xs : List α) (d : List Nat), (∃ a ∈ xs, Q a) →
      (xs.foldl step d).getD j 0 = 0 := by
  intro xs
  induction xs with
  | nil =>
      intro d hex
      exact absurd hex (by simp)
  | cons a xs ih =>
      intro d hex
      rw [List.foldl_cons]
      by_cases hq : Q a
      · exact foldl_getD_zero_stays step Q j hzero hpres xs _ (hzero d a hq)
      · obtain ⟨b, hb, hqb⟩ := hex
        rcases List.mem_cons.mp hb with rfl | hb
        · exact absurd hqb hq
        · exact ih _ ⟨b, hb, hqb⟩

/-! ## Characterization of the cleanup pass -/

theorem cleanAlphaData_length (w h : Nat) (data : List Nat) :
    (cleanAlphaData w h data).length = data.length := by
  unfold cleanAlphaData
  exact foldl_length _
    (fun d y => foldl_length _ (fun d2 x => processPixel_length data w h d2 x y) _ d)
    _ data

theorem cleanAlphaData_getD_zero (w h : Nat) (data : List Nat) (x y : Nat)
    (hx : x < w) (hy : y < h) (hz : shouldZero data w h x y = true) :
    (cleanAlphaData w h data).getD ((y * w + x) * 4 + 3) 0 = 0 := by
  unfold cleanAlphaData
  apply foldl_getD_zero_of_mem _
    (fun y2 => ∃ x2, x2 < w ∧ (y * w + x) * 4 + 3 = (y2 * w + x2) * 4 + 3 ∧
      shouldZero data w h x2 y2 = true)
  · intro d y2 hq
    obtain ⟨x2, hx2, hj, hz2⟩ := hq
    rw [hj]
    apply foldl_getD_zero_of_mem _
      (fun x3 => (y2 * w + x2) * 4 + 3 = (y2 * w + x3) * 4 + 3 ∧
        shouldZero data w h x3 y2 = true)
    · intro d2 x3 hq3
      exact (processPixel_getD data w h d2 x3 y2 _).1 hq3
    · intro d2 x3 hq3
      exact (processPixel_getD data w h d2 x3 y2 _).2 hq3
    · exact ⟨x2, by simp [List.mem_range, hx2], rfl, hz2⟩
  · intro d y2 hq
    apply foldl_getD_preserve _
      (fun x3 => (y * w + x) * 4 + 3 = (y2 * w + x3) * 4 + 3 ∧
        shouldZero data w h x3 y2 = true)
    · intro d2 x3 hq3
      exact (processPixel_getD data w h d2 x3 y2 _).2 hq3
    · intro x3 hx3
      intro hc
      exact hq ⟨x3, List.mem_range.mp hx3, hc⟩
  · exact ⟨y, by simp [List.mem_range, hy], x, hx, rfl, hz⟩

theorem cleanAlphaData_getD_preserve (w h : Nat) (data : List Nat) (j : Nat)
    (hq : ∀ x y, x < w → y < h →
      ¬ (j = (y * w + x) * 4 + 3 ∧ shouldZero data w h x y = true)) :
    (cleanAlphaData w h data).getD j 0 = data.getD j 0 := by
  unfold cleanAlphaData
  apply foldl_getD_preserve _
    (fun y2 => ∃ x2, x2 < w ∧ j = (y2 * w + x2) * 4 + 3 ∧
      shouldZero data w h x2 y2 = true)
  · intro d y2 hq2
    apply foldl_getD_preserve _
      (fun x3 => j = (y2 * w + x3) * 4 + 3 ∧ shouldZero data w h x3 y2 = true)
    · intro d2 x3 hq3
      exact (processPixel_getD data w h d2 x3 y2 _).2 hq3
    · intro x3 hx3 hc
      exact hq2 ⟨x3, List.mem_range.mp hx3, hc⟩
  · intro y2 hy2
    intro hc
    obtain ⟨x2, hx2, hj, hz2⟩ := hc
    exact hq x2 y2 hx2 (List.mem_range.mp hy2) ⟨hj, hz2⟩

theorem cleanAlphaData_getD_le (w h : Nat) (data : List Nat) (j : Nat) :
    (cleanAlphaData w h data).getD j 0 ≤ data.getD j 0 := by
  unfold cleanAlphaData
  apply foldl_getD_le
  intro d y
  apply foldl_getD_le
  intro d2 x
  rw [processPixel_eq_ite]
  split
  · exact getD_set_zero_le _ _ _
  · exact Nat.le_refl _

end Apng

namespace Apng

theorem pixIdx_inj {w x x2 y y2 : Nat} (hx : x < w) (hx2 : x2 < w)
    (heq : y * w + x = y2 * w + x2) : x = x2 ∧ y = y2 := by
  have hy : y = y2 := by
    rcases Nat.lt_trichotomy y y2 with h | h | h
    · exfalso
      have h1 : y * w + x < (y + 1) * w := by rw [Nat.succ_mul]; omega
      have h2 : (y + 1) * w ≤ y2 * w := Nat.mul_le_mul_right w (by omega)
      omega
    · exact h
    · exfalso
      have h1 : y2 * w + x2 < (y2 + 1) * w := by rw [Nat.succ_mul]; omega
      have h2 : (y2 + 1) * w ≤ y * w := Nat.mul_le_mul_right w (by omega)
      omega
  subst hy
  exact ⟨by omega, rfl⟩

/-- The short-circuit `else if` neighbour chain of the cleanup loop holds
exactly when some in-bounds axis-aligned neighbour's snapshot alpha is below
the threshold, with each neighbour's buffer offset rewritten as that
neighbour's pixel coordinates. -/
theorem isEdge_iff (orig : List Nat) (w h x y : Nat) (hx : x < w) (hy : y < h) :
    isEdge orig w h x y = true ↔
      ((0 < x ∧ orig.getD ((y * w + (x - 1)) * 4 + 3) 0 < threshold) ∨
       (x + 1 < w ∧ orig.getD ((y * w + (x + 1)) * 4 + 3) 0 < threshold) ∨
       (0 < y ∧ orig.getD (((y - 1) * w + x) * 4 + 3) 0 < threshold) ∨
       (y + 1 < h ∧ orig.getD (((y + 1) * w + x) * 4 + 3) 0 < threshold)) := by
  have e1 : 0 < x → (y * w + x) * 4 - 4 + 3 = (y * w + (x - 1)) * 4 + 3 := by
    intro hx0; omega
  have e2 : (y * w + x) * 4 + 4 + 3 = (y * w + (x + 1)) * 4 + 3 := by omega
  have e3 : 0 < y → (y * w + x) * 4 - w * 4 + 3 = ((y - 1) * w + x) * 4 + 3 := by
    intro hy0
    have hsub : (y - 1) * w = y * w - w := by rw [Nat.sub_mul, Nat.one_mul]
    have hw : w ≤ y * w := by
      calc w = 1 * w := (Nat.one_mul w).symm
        _ ≤ y * w := Nat.mul_le_mul_right w (by omega)
    rw [hsub]
    omega
  have e4 : (y * w + x) * 4 + w * 4 + 3 = ((y + 1) * w + x) * 4 + 3 := by
    have hadd : (y + 1) * w = y * w + w := Nat.succ_mul y w
    omega
  have hiso : isEdge orig w h x y = true ↔
      ((0 < x ∧ orig.getD ((y * w + x) * 4 - 4 + 3) 0 < threshold) ∨
       (x < w - 1 ∧ orig.getD ((y * w + x) * 4 + 4 + 3) 0 < threshold) ∨
       (0 < y ∧ orig.getD ((y * w + x) * 4 - w * 4 + 3) 0 < threshold) ∨
       (y < h - 1 ∧ orig.getD ((y * w + x) * 4 + w * 4 + 3) 0 < threshold)) := by
    simp only [isEdge]
    by_cases h1 : 0 < x ∧ orig.getD ((y * w + x) * 4 - 4 + 3) 0 < threshold
    · rw [if_pos h1]
      exact iff_of_true rfl (Or.inl h1)
    · rw [if_neg h1]
      by_cases h2 : x < w - 1 ∧ orig.getD ((y * w + x) * 4 + 4 + 3) 0 < threshold
      · rw [if_pos h2]
        exact iff_of_true rfl (Or.inr (Or.inl h2))
      · rw [if_neg h2]
        by_cases h3 : 0 < y ∧ orig.getD ((y * w + x) * 4 - w * 4 + 3) 0 < threshold
        · rw [if_pos h3]
          exact iff_of_true rfl (Or.inr (Or.inr (Or.inl h3)))
        · rw [if_neg h3]
          by_cases h4 : y < h - 1 ∧
              orig.getD ((y * w + x) * 4 + w * 4 + 3) 0 < threshold
          · rw [if_pos h4]
            exact iff_of_true rfl (Or.inr (Or.inr (Or.inr h4)))
          · rw [if_neg h4]
            constructor
            · intro hfalse
              exact absurd hfalse (by simp)
            · rintro (hd | hd | hd | hd)
              · exact absurd hd h1
              · exact absurd hd h2
              · exact absurd hd h3
              · exact absurd hd h4
  rw [hiso]
  constructor
  · rintro (⟨ha, hb⟩ | ⟨ha, hb⟩ | ⟨ha, hb⟩ | ⟨ha, hb⟩)
    · exact Or.inl ⟨ha, by rw [← e1 ha]; exact hb⟩
    · exact Or.inr (Or.inl ⟨by omega, by rw [← e2]; exact hb⟩)
    · exact Or.inr (Or.inr (Or.inl ⟨ha, by rw [← e3 ha]; exact hb⟩))
    · exact Or.inr (Or.inr (Or.inr ⟨by omega, by rw [← e4]; exact hb⟩))
  · rintro (⟨ha, hb⟩ | ⟨ha, hb⟩ | ⟨ha, hb⟩ | ⟨ha, hb⟩)
    · exact Or.inl ⟨ha, by rw [e1 ha]; exact hb⟩
    · exact Or.inr (Or.inl ⟨by omega, by rw [e2]; exact hb⟩)
    · exact Or.inr (Or.inr (Or.inl ⟨ha, by rw [e3 ha]; exact hb⟩))
    · exact Or.inr (Or.inr (Or.inr ⟨by omega, by rw [e4]; exact hb⟩))

/-- Claim C4: with threshold 60, the cleanup pass keeps the buffer length,
never touches a non-alpha byte, and sets each pixel's alpha to 0 exactly
when its snapshot alpha is below 60 or some in-bounds axis-aligned
neighbour's snapshot alpha is below 60, leaving it at the snapshot value
otherwise.  Neighbour tests use the pre-mutation snapshot, and out-of-bounds
neighbours (guards `0 < x`, `x + 1 < w`, `0 < y`, `y + 1 < h`) are never
treated as transparent. -/
theorem C4_alpha_cleanup (w h : Nat) (data : List Nat)
    (hlen : data.length = w * h * 4) :
    (cleanAlphaData w h data).length = data.length ∧
    (∀ j, j % 4 ≠ 3 → (cleanAlphaData w h data).getD j 0 = data.getD j 0) ∧
    (∀ x y, x < w → y < h →
      (cleanAlphaData w h data).getD ((y * w + x) * 4 + 3) 0 =
        if data.getD ((y * w + x) * 4 + 3) 0 < 60 ∨
            (0 < x ∧ data.getD ((y * w + (x - 1)) * 4 + 3) 0 < 60) ∨
            (x + 1 < w ∧ data.getD ((y * w + (x + 1)) * 4 + 3) 0 < 60) ∨
            (0 < y ∧ data.getD (((y - 1) * w + x) * 4 + 3) 0 < 60) ∨
            (y + 1 < h ∧ data.getD (((y + 1) * w + x) * 4 + 3) 0 < 60)
        then 0 else data.getD ((y * w + x) * 4 + 3) 0) := by
  have hthr : threshold = 60 := rfl
  refine ⟨cleanAlphaData_length w h data, ?_, ?_⟩
  · intro j hj
    apply cleanAlphaData_getD_preserve
    intro x y hx hy hc
    have := hc.1
    omega
  · intro x y hx hy
    have hbridge : shouldZero data w h x y = true ↔
        (data.getD ((y * w + x) * 4 + 3) 0 < 60 ∨
          (0 < x ∧ data.getD ((y * w + (x - 1)) * 4 + 3) 0 < 60) ∨
          (x + 1 < w ∧ data.getD ((y * w + (x + 1)) * 4 + 3) 0 < 60) ∨
          (0 < y ∧ data.getD (((y - 1) * w + x) * 4 + 3) 0 < 60) ∨
          (y + 1 < h ∧ data.getD (((y + 1) * w + x) * 4 + 3) 0 < 60)) := by
      unfold shouldZero
      rw [Bool.or_eq_true, decide_eq_true_eq, isEdge_iff data w h x y hx hy, hthr]
    by_cases hcond : data.getD ((y * w + x) * 4 + 3) 0 < 60 ∨
        (0 < x ∧ data.getD ((y * w + (x - 1)) * 4 + 3) 0 < 60) ∨
        (x + 1 < w ∧ data.getD ((y * w + (x + 1)) * 4 + 3) 0 < 60) ∨
        (0 < y ∧ data.getD (((y - 1) * w + x) * 4 + 3) 0 < 60) ∨
        (y + 1 < h ∧ data.getD (((y + 1) * w + x) * 4 + 3) 0 < 60)
    · rw [if_pos hcond]
      exact cleanAlphaData_getD_zero w h data x y hx hy (hbridge.mpr hcond)
    · rw [if_neg hcond]
      apply cleanAlphaData_getD_preserve
      intro x2 y2 hx2 hy2 hc
      obtain ⟨hj, hz⟩ := hc
      have hpix : y * w + x = y2 * w + x2 := by omega
      obtain ⟨hxeq, hyeq⟩ := pixIdx_inj hx hx2 hpix
      subst hxeq
      subst hyeq
      exact hcond (hbridge.mp hz)

theorem C4_alpha_cleanup_witness :
    (cleanAlphaData 2 1 [10, 20, 30, 200, 1, 2, 3, 100]).length =
      ([10, 20, 30, 200, 1, 2, 3, 100] : List Nat).length ∧
    (∀ j, j % 4 ≠ 3 →
      (cleanAlphaData 2 1 [10, 20, 30, 200, 1, 2, 3, 100]).getD j 0 =
        ([10, 20, 30, 200, 1, 2, 3, 100] : List Nat).getD j 0) ∧
    (∀ x y, x < 2 → y < 1 →
      (cleanAlphaData 2 1 [10, 20, 30, 200, 1, 2, 3, 100]).getD
          ((y * 2 + x) * 4 + 3) 0 =
        if ([10, 20, 30, 200, 1, 2, 3, 100] : List Nat).getD
              ((y * 2 + x) * 4 + 3) 0 < 60 ∨
            (0 < x ∧ ([10, 20, 30, 200, 1, 2, 3, 100] : List Nat).getD
              ((y * 2 + (x - 1)) * 4 + 3) 0 < 60) ∨
            (x + 1 < 2 ∧ ([10, 20, 30, 200, 1, 2, 3, 100] : List Nat).getD
              ((y * 2 + (x + 1)) * 4 + 3) 0 < 60) ∨
            (0 < y ∧ ([10, 20, 30, 200, 1, 2, 3, 100] : List Nat).getD
              (((y - 1) * 2 + x) * 4 + 3) 0 < 60) ∨
            (y + 1 < 1 ∧ ([10, 20, 30, 200, 1, 2, 3, 100] : List Nat).getD
              (((y + 1) * 2 + x) * 4 + 3) 0 < 60)
        then 0
        else ([10, 20, 30, 200, 1, 2, 3, 100] : List Nat).getD
          ((y * 2 + x) * 4 + 3) 0) :=
  C4_alpha_cleanup 2 1 [10, 20, 30, 200, 1, 2, 3, 100] (by decide)

/-- Claim C5, counterexample: the cleanup pass is not idempotent.  On a
4×1 row with alphas `0, 255, 255, 255` the first pass erodes pixel 1
(neighbour of the transparent pixel 0), and the second pass then erodes
pixel 2, so `clean (clean b) ≠ clean b`. -/
theorem C5_counterexample :
    cleanAlphaData 4 1
        (cleanAlphaData 4 1
          [0, 0, 0, 0, 0, 0, 0, 255, 0, 0, 0, 255, 0, 0, 0, 255]) ≠
      cleanAlphaData 4 1
        [0, 0, 0, 0, 0, 0, 0, 255, 0, 0, 0, 255, 0, 0, 0, 255] := by
  decide

/-- Claim C5, amended: a second pass can only erode further — it agrees with
the first pass on every non-alpha byte and never increases any alpha — but
equality `clean (clean b) = clean b` can fail (see the counterexample). -/
theorem C5_second_pass_bound (w h : Nat) (data : List Nat) (j : Nat) :
    (cleanAlphaData w h (cleanAlphaData w h data)).getD j 0 ≤
      (cleanAlphaData w h data).getD j 0 ∧
    (j % 4 ≠ 3 →
      (cleanAlphaData w h (cleanAlphaData w h data)).getD j 0 =
        (cleanAlphaData w h data).getD j 0) := by
  constructor
  · exact cleanAlphaData_getD_le w h _ j
  · intro hj
    apply cleanAlphaData_getD_preserve
    intro x y hx hy hc
    have := hc.1
    omega

theorem C5_second_pass_bound_witness :
    (cleanAlphaData 4 1
        (cleanAlphaData 4 1
          [7, 7, 7, 0, 0, 0, 0, 255, 0, 0, 0, 255, 0, 0, 0, 255])).getD 0 0 ≤
      (cleanAlphaData 4 1
        [7, 7, 7, 0, 0, 0, 0, 255, 0, 0, 0, 255, 0, 0, 0, 255]).getD 0 0 ∧
    (cleanAlphaData 4 1
        (cleanAlphaData 4 1
          [7, 7, 7, 0, 0, 0, 0, 255, 0, 0, 0, 255, 0, 0, 0, 255])).getD 0 0 =
      (cleanAlphaData 4 1
        [7, 7, 7, 0, 0, 0, 0, 255, 0, 0, 0, 255, 0, 0, 0, 255]).getD 0 0 :=
  ⟨(C5_second_pass_bound 4 1 _ 0).1, (C5_second_pass_bound 4 1 _ 0).2 (by decide)⟩

end Apng

namespace Apng

/-! ## The procedural animation parameters of `drawFrame`

`drawFrame` computes `t = (time % duration) / duration`,
`rad = t * Math.PI * 2`, then switches on the animation kind to set
`offsetX`, `offsetY`, `scale`, `rotation` (defaults 0, 0, 1, 0).  JS `%` on
numbers is the remainder with truncated quotient.  For `swing` the canvas
receives `translate(centerX + offsetX, centerY + offsetY)`,
`translate(0, pivotOffset)`, `rotate(rotation)`,
`translate(0, -pivotOffset)` with `pivotOffset = drawHeight / 2`; the sprite
itself is drawn on the rectangle `[-drawWidth/2, drawWidth/2] ×
[-drawHeight/2, drawHeight/2]` in the transformed frame. -/

inductive AnimationType
  | noneAnim
  | bounce
  | shake
  | pulse
  | swing

noncomputable def jsTrunc (r : ℝ) : ℤ := if 0 ≤ r then ⌊r⌋ else ⌈r⌉

noncomputable def jsMod (x y : ℝ) : ℝ := x - y * (jsTrunc (x / y) : ℝ)

noncomputable def animParams (ty : AnimationType) (time duration : ℝ) :
    ℝ × ℝ × ℝ × ℝ :=
  let t := jsMod time duration / duration
  let rad := t * Real.pi * 2
  match ty with
  | .bounce => (0, Real.sin (rad * 2) * 20, 1, 0)
  | .shake => (Real.sin (rad * 4) * 10, 0, 1, 0)
  | .pulse => (0, 0, 1 + Real.sin rad * 0.1, 0)
  | .swing => (0, 0, 1, Real.sin rad * 0.2)
  | .noneAnim => (0, 0, 1, 0)

def jsTranslate (dx dy : ℝ) (p : ℝ × ℝ) : ℝ × ℝ := (p.1 + dx, p.2 + dy)

noncomputable def jsRotate (θ : ℝ) (p : ℝ × ℝ) : ℝ × ℝ :=
  (Real.cos θ * p.1 - Real.sin θ * p.2, Real.sin θ * p.1 + Real.cos θ * p.2)

/-- The point map the canvas applies to sprite-local coordinates in the
`swing` branch of `drawFrame`, in the source's operation order. -/
noncomputable def drawFrameSwingMap (cx cy ox oy dh rotv : ℝ) (p : ℝ × ℝ) :
    ℝ × ℝ :=
  jsTranslate (cx + ox) (cy + oy)
    (jsTranslate 0 (dh / 2) (jsRotate rotv (jsTranslate 0 (-(dh / 2)) p)))

/-- Rotation about an arbitrary pivot point, as the spec describes it. -/
noncomputable def rotAbout (q : ℝ × ℝ) (θ : ℝ) (p : ℝ × ℝ) : ℝ × ℝ :=
  (q.1 + (Real.cos θ * (p.1 - q.1) - Real.sin θ * (p.2 - q.2)),
   q.2 + (Real.sin θ * (p.1 - q.1) + Real.cos θ * (p.2 - q.2)))

/-- Bottom-center of the sprite rectangle
`[-dw/2, dw/2] × [-dh/2, dh/2]` (canvas y grows downward). -/
noncomputable def spriteBottomCenter (dw dh : ℝ) : ℝ × ℝ := (0, dh / 2)

end Apng

namespace Apng

/-- Claim C6: with `t = (time mod duration) / duration` and `θ = t × 2π`,
`drawFrame`'s parameter switch yields exactly the identity for `none`
(offsets 0, scale 1, rotation 0), vertical offset `20·sin 2θ` for `bounce`,
horizontal offset `10·sin 4θ` for `shake`, uniform scale `1 + 0.1·sin θ` for
`pulse`, and rotation `0.2·sin θ` for `swing`; and the `swing` canvas
transform equals the centering translation composed with a rotation about
the bottom-center of the rendered sprite. -/
theorem C6_animation_engine (time duration cx cy ox oy dw dh rotv : ℝ)
    (p : ℝ × ℝ) :
    (animParams .noneAnim time duration = (0, 0, 1, 0)) ∧
    (animParams .bounce time duration =
      (0, 20 * Real.sin (2 * (jsMod time duration / duration * (2 * Real.pi))),
        1, 0)) ∧
    (animParams .shake time duration =
      (10 * Real.sin (4 * (jsMod time duration / duration * (2 * Real.pi))),
        0, 1, 0)) ∧
    (animParams .pulse time duration =
      (0, 0,
        1 + 0.1 * Real.sin (jsMod time duration / duration * (2 * Real.pi)),
        0)) ∧
    (animParams .swing time duration =
      (0, 0, 1,
        0.2 * Real.sin (jsMod time duration / duration * (2 * Real.pi)))) ∧
    (drawFrameSwingMap cx cy ox oy dh rotv p =
      jsTranslate (cx + ox) (cy + oy)
        (rotAbout (spriteBottomCenter dw dh) rotv p)) := by
  refine ⟨rfl, ?_, ?_, ?_, ?_, ?_⟩
  · simp only [animParams, Prod.mk.injEq, true_and, and_true]
    ring_nf
  · simp only [animParams, Prod.mk.injEq, true_and, and_true]
    ring_nf
  · simp only [animParams, Prod.mk.injEq, true_and, and_true]
    ring_nf
  · simp only [animParams, Prod.mk.injEq, true_and, and_true]
    ring_nf
  · simp only [drawFrameSwingMap, jsTranslate, jsRotate, rotAbout,
      spriteBottomCenter, Prod.mk.injEq]
    constructor <;> ring

end Apng

namespace Apng

/-! ## The export routine's control flow (`handleExport`)

`handleExport` returns immediately when `imageRef.current` is absent.
Otherwise it computes `frameInterval = 1000 / 8` and
`totalFrames = Math.floor(duration / frameInterval)` — note: from the cycle
`duration`, not the displayed total duration — renders `totalFrames` frames
pushing a delay of `frameInterval` per frame, and proceeds to encode and
download with no check that `totalFrames` is positive. -/

inductive ExportOutcome
  | noImage
  | exported (frameCount : Nat) (delays : List Nat)
  deriving DecidableEq

def handleExportModel (hasImage : Bool) (duration : Nat) : ExportOutcome :=
  if !hasImage then .noImage
  else
    let frameInterval := 1000 / 8
    let totalFrames := duration / frameInterval
    .exported totalFrames (List.replicate totalFrames frameInterval)

/-- Claim C7, counterexample: a zero computed frame count is *not* rejected.
With a bitmap present and `duration = 100` (loop count 1, so the claim's
`totalDuration = 100` and `⌊100 / 125⌋ = 0`), `handleExport` does not fail
with an input error: it proceeds and hands the encoder an empty frame
sequence. -/
theorem C7_counterexample :
    handleExportModel true 100 = .exported 0 [] ∧
    100 / 125 = 0 ∧
    handleExportModel true 100 ≠ .noImage := by
  refine ⟨rfl, rfl, ?_⟩
  decide

/-- Claim C7, amended: the export aborts (producing nothing) when the
cleaned source bitmap is absent; otherwise it always proceeds, with frame
count `⌊duration / 125⌋` (computed from the cycle duration, not the total
duration) and a 125 ms delay per frame — a zero frame count is not
rejected. -/
theorem C7_export_guard (duration : Nat) :
    handleExportModel false duration = .noImage ∧
    handleExportModel true duration =
      .exported (duration / 125) (List.replicate (duration / 125) 125) := by
  exact ⟨rfl, rfl⟩

/-! ## The LINE-compliance gate of `AnimationPreview` -/

def totalDuration (loopCount duration : Nat) : Nat :=
  if loopCount = 0 then duration else duration * loopCount

def isLineCompliant (loopCount duration : Nat) : Bool :=
  decide (totalDuration loopCount duration ≤ 4000) &&
    decide (totalDuration loopCount duration % 1000 = 0)

/-- The compliance part of the export buttons' `disabled` condition:
`loopCount !== 0 && !isLineCompliant`. -/
def exportComplianceBlocked (loopCount duration : Nat) : Bool :=
  decide (loopCount ≠ 0) && !(isLineCompliant loopCount duration)

/-- Claim C8: export is permitted by the compliance gate iff `loopCount = 0`
or `loopCount × cycleDuration ≤ 4000` and that product is an exact multiple
of 1000; in particular `loopCount = 3`, `cycleDuration = 1000` passes and
`loopCount = 3`, `cycleDuration = 1500` is blocked. -/
theorem C8_line_compliance_gate (lc d : Nat) :
    (exportComplianceBlocked lc d = false ↔
      lc = 0 ∨ (lc * d ≤ 4000 ∧ 1000 ∣ lc * d)) ∧
    exportComplianceBlocked 3 1000 = false ∧
    exportComplianceBlocked 3 1500 = true := by
  refine ⟨?_, by decide, by decide⟩
  by_cases h0 : lc = 0
  · subst h0
    simp [exportComplianceBlocked]
  · have hc : d * lc = lc * d := Nat.mul_comm d lc
    simp [exportComplianceBlocked, isLineCompliant, totalDuration, h0, hc,
      Nat.dvd_iff_mod_eq_zero]

end Apng
